import Mathlib

/-!
Verification development for the task-scheduling core of the repository:
a shallow embedding of src/task_scheduler/scheduler_worker_pool_impl.cc and
src/task/sequence_manager/thread_controller_impl.cc, together with proofs of
the specification's claims about them.

Workers are identified by natural numbers; the OS-thread side effects
(WakeUp, thread start) are recorded in ghost event fields (woken list,
creation-attempt counter) so that claims about them can be stated.
Worker-thread creation can fail in the source (SchedulerWorker::Start),
which is modelled by an oracle start_results : Nat -> Bool giving the
outcome of each successive creation attempt.
-/

namespace SchedulerPool

/-- A Sequence as far as the pool is concerned: it only exposes a sort key
(priority, monotonic sequence number), per spec section 3. -/
structure Sequence where
  priority : Nat
  seqNum : Nat
  deriving DecidableEq, Repr

/-- Sort key of a sequence: (priority, per-push sequence number). -/
def GetSortKey (s : Sequence) : Nat × Nat := (s.priority, s.seqNum)

/-- Modelled from the spec (section 4.1, PriorityQueue; implementation not in
src/): sort-key comparison, primary key priority (lower value = higher
priority), secondary key sequence number. -/
def keyLE (a b : Nat × Nat) : Bool :=
  Nat.blt a.1 b.1 || (a.1 == b.1 && Nat.ble a.2 b.2)

/-- Modelled from the spec (section 4.1, PriorityQueue::Transaction::PopSequence;
implementation not in src/): remove and return the entry with the minimum
sort key, returning none if the queue is empty. -/
def PopSequence :
    List ((Nat × Nat) × Sequence) →
    Option (((Nat × Nat) × Sequence) × List ((Nat × Nat) × Sequence))
  | [] => none
  | e :: rest =>
    match PopSequence rest with
    | none => some (e, [])
    | some (m, rest') =>
      if keyLE e.1 m.1 then some (e, rest) else some (m, e :: rest')

/-- State of a SchedulerWorkerPoolImpl (src/task_scheduler/
scheduler_worker_pool_impl.cc), with workers named by natural-number ids.
Fields workers, idle_workers_stack, worker_capacity,
num_wake_ups_before_start, shared_priority_queue and
worker_cleanup_disallowed mirror the members of the same names;
is_on_idle_workers_stack gives each worker delegate's flag of that name.
woken is a ghost log of WakeUp() calls; start_results, attempts and next_id
model the outcome of successive SchedulerWorker::Start attempts and fresh
worker identity. -/
@[ext]
structure PoolState where
  workers : List Nat
  idle_workers_stack : List Nat
  worker_capacity : Nat
  num_wake_ups_before_start : Nat
  is_on_idle_workers_stack : Nat → Bool
  worker_cleanup_disallowed : Bool
  shared_priority_queue : List ((Nat × Nat) × Sequence)
  woken : List Nat
  start_results : Nat → Bool
  attempts : Nat
  next_id : Nat

/-- Modelled from the spec (section 4.2, IdleWorkerStack::Contains;
implementation not in src/). -/
def stackContains (st : List Nat) (w : Nat) : Bool := st.contains w

/-- SchedulerWorkerPoolImpl::CreateRegisterAndStartSchedulerWorker: construct
a worker (its delegate starts with is_on_idle_workers_stack_ = true), try to
start its thread, and on success append it to workers_ and return it; on
failure return null. The thread-start outcome is given by the oracle. -/
def CreateRegisterAndStartSchedulerWorker (s : PoolState) :
    Option Nat × PoolState :=
  let id := s.next_id
  let ok := s.start_results s.attempts
  let s1 : PoolState :=
    { s with
      attempts := s.attempts + 1
      next_id := s.next_id + 1
      is_on_idle_workers_stack := fun x =>
        if x = id then true else s.is_on_idle_workers_stack x }
  if ok then (some id, { s1 with workers := s1.workers ++ [id] })
  else (none, s1)

/-- Delegate WakeUp path shared by WakeUpOneWorker and Start: UnsetIsOnIdleWorkersStack
followed by worker->WakeUp() (the wake-up recorded in the ghost log). -/
def wakeWorker (s : PoolState) (w : Nat) : PoolState :=
  { s with
    is_on_idle_workers_stack := fun x =>
      if x = w then false else s.is_on_idle_workers_stack x
    woken := s.woken ++ [w] }

/-- The trailing block of WakeUpOneWorker (lines 471-477): try to keep at
least one idle worker at all times by creating a standby worker and pushing
it on the idle stack, when the stack is empty and capacity remains. -/
def maintainStandbyWorker (s : PoolState) : PoolState :=
  if s.idle_workers_stack.isEmpty ∧ s.workers.length < s.worker_capacity then
    match CreateRegisterAndStartSchedulerWorker s with
    | (some nw, s3) => { s3 with idle_workers_stack := nw :: s3.idle_workers_stack }
    | (none, s3) => s3
  else s

/-- SchedulerWorkerPoolImpl::WakeUpOneWorker (scheduler_worker_pool_impl.cc
lines 448-478). Pop on the idle stack is modelled from the spec (section 4.2:
fails, i.e. yields nothing, when the stack is empty). -/
def WakeUpOneWorker (s : PoolState) : PoolState :=
  if s.workers.isEmpty then
    { s with num_wake_ups_before_start := s.num_wake_ups_before_start + 1 }
  else
    let ws :=
      if s.idle_workers_stack.isEmpty ∧ s.workers.length < s.worker_capacity then
        CreateRegisterAndStartSchedulerWorker s
      else
        (s.idle_workers_stack.head?,
         { s with idle_workers_stack := s.idle_workers_stack.tail })
    let s2 :=
      match ws.1 with
      | some w => wakeWorker ws.2 w
      | none => ws.2
    maintainStandbyWorker s2

/-- The loop body of SchedulerWorkerPoolImpl::Start (lines 162-180), iterated
with the current index and remaining iteration count; the returned Bool
records whether the CHECK(worker || index > 0) on line 167 failed at any
iteration. -/
def startLoop (wakeUps : Nat) : PoolState → Nat → Nat → Bool × PoolState
  | s, _, 0 => (false, s)
  | s, index, fuel + 1 =>
    let ws := CreateRegisterAndStartSchedulerWorker s
    let failedHere := ws.1.isNone && index == 0
    let s2 :=
      match ws.1 with
      | some w =>
        if index < wakeUps then wakeWorker ws.2 w
        else { ws.2 with idle_workers_stack := w :: ws.2.idle_workers_stack }
      | none => ws.2
    let rest := startLoop wakeUps s2 (index + 1) fuel
    (failedHere || rest.1, rest.2)

/-- SchedulerWorkerPoolImpl::Start (lines 147-181): set worker_capacity_ from
the params, then create min(num_wake_ups_before_start_ + 1, capacity) initial
workers, waking those with index < num_wake_ups_before_start_ and pushing the
others on the idle stack. The Bool records whether the CHECK on the first
worker failed. -/
def Start (s : PoolState) (capacity : Nat) : Bool × PoolState :=
  let s0 := { s with worker_capacity := capacity }
  let numInitialWorkers := min (s0.num_wake_ups_before_start + 1) capacity
  startLoop s0.num_wake_ups_before_start s0 0 numInitialWorkers

/-- SchedulerWorkerPoolImpl::ScheduleSequence (lines 192-199): push under the
sequence's current sort key, then WakeUpOneWorker. -/
def ScheduleSequence (s : PoolState) (sq : Sequence) : PoolState :=
  WakeUpOneWorker
    { s with shared_priority_queue := s.shared_priority_queue ++ [(GetSortKey sq, sq)] }

/-- SchedulerWorkerDelegateImpl::ReEnqueueSequence (lines 370-378): push under
the sequence's current sort key; no wake-up. -/
def ReEnqueueSequence (s : PoolState) (sq : Sequence) : PoolState :=
  { s with shared_priority_queue := s.shared_priority_queue ++ [(GetSortKey sq, sq)] }

/-- SchedulerWorkerDelegateImpl::CanCleanup (lines 385-389): the worker is
allowed to clean up iff it is not the worker at the top of the idle stack
(PeekAtIdleWorkersStack) and cleanup is not disallowed. -/
def CanCleanup (s : PoolState) (w : Nat) : Bool :=
  (match s.idle_workers_stack.head? with
   | some t => w != t
   | none => true) && !s.worker_cleanup_disallowed

/-- SchedulerWorkerDelegateImpl::Cleanup (lines 391-404): worker->Cleanup(),
remove the worker from the idle stack (RemoveFromIdleWorkersStack, spec
section 4.2 Remove) and erase it from workers_. -/
def Cleanup (s : PoolState) (w : Nat) : PoolState :=
  { s with
    idle_workers_stack := s.idle_workers_stack.erase w
    workers := s.workers.erase w }

/-- SchedulerWorkerDelegateImpl::GetWork (lines 290-363): if the worker is
idle-marked (idle wait timed out) possibly clean it up and return no work;
otherwise, under a priority-queue transaction, either pop the minimal
sequence, or — when the queue is empty — push the worker on the idle stack,
set its idle flag, and return no work. -/
def GetWork (s : PoolState) (w : Nat) : Option Sequence × PoolState :=
  if s.is_on_idle_workers_stack w then
    (none, if CanCleanup s w then Cleanup s w else s)
  else
    match PopSequence s.shared_priority_queue with
    | none =>
      (none,
       { s with
         idle_workers_stack := w :: s.idle_workers_stack
         is_on_idle_workers_stack := fun x =>
           if x = w then true else s.is_on_idle_workers_stack x })
    | some (e, rest) => (some e.2, { s with shared_priority_queue := rest })

/-- The worker-pool operations quantified over by the invariant claims. -/
inductive PoolOp where
  | start (capacity : Nat)
  | scheduleSequence (sq : Sequence)
  | wakeUpOneWorker
  | getWork (w : Nat)
  | reEnqueueSequence (sq : Sequence)
  | disallowWorkerCleanup
  deriving Repr

/-- Apply one pool operation to a state. -/
def applyOp (s : PoolState) : PoolOp → PoolState
  | PoolOp.start capacity => (Start s capacity).2
  | PoolOp.scheduleSequence sq => ScheduleSequence s sq
  | PoolOp.wakeUpOneWorker => WakeUpOneWorker s
  | PoolOp.getWork w => (GetWork s w).2
  | PoolOp.reEnqueueSequence sq => ReEnqueueSequence s sq
  | PoolOp.disallowWorkerCleanup => { s with worker_cleanup_disallowed := true }

/-- Apply a list of pool operations from left to right. -/
def applyOps (s : PoolState) : List PoolOp → PoolState
  | [] => s
  | op :: ops => applyOps (applyOp s op) ops

/-- DCHECKed precondition of an operation: Start requires workers_ to be empty
(line 150); GetWork requires the calling worker to be registered (line 296)
and its idle flag to agree with idle-stack membership (lines 301-302). -/
def WfOp (s : PoolState) : PoolOp → Bool
  | PoolOp.start _ => s.workers.isEmpty
  | PoolOp.getWork w =>
    s.workers.contains w &&
      (s.is_on_idle_workers_stack w == stackContains s.idle_workers_stack w)
  | _ => true

/-- A trace of operations each of which satisfies its DCHECKed precondition in
the state where it runs. -/
def WfTrace (s : PoolState) : List PoolOp → Bool
  | [] => true
  | op :: ops => WfOp s op && WfTrace (applyOp s op) ops

/-- The pool invariant of spec section 3: the idle stack holds registered
workers without duplication, the worker list has no duplicates and respects
capacity, and all registered workers have ids below the fresh-id counter. -/
def Inv (s : PoolState) : Prop :=
  (∀ w ∈ s.idle_workers_stack, w ∈ s.workers) ∧
  s.idle_workers_stack.Nodup ∧
  s.workers.Nodup ∧
  s.workers.length ≤ s.worker_capacity ∧
  (∀ w ∈ s.workers, w < s.next_id)

instance (s : PoolState) : Decidable (Inv s) := by
  unfold Inv; infer_instance

/-- Number of loop indices in [index, index + fuel) that are below wake:
the iterations of the Start loop that wake their worker eagerly. -/
def countWake (wake index : Nat) : Nat → Nat
  | 0 => 0
  | fuel + 1 => (if index < wake then 1 else 0) + countWake wake (index + 1) fuel

/-- The claimed behaviour of WakeUpOneWorker, written from the specification's
wording (spec section 4.3): on an empty worker list only the deferred wake-up
count is incremented; otherwise, when the idle stack is empty and capacity
remains, a new worker is created, registered and woken, else the top of the
idle stack is popped and woken; finally, when the idle stack is then empty
and capacity remains, exactly one additional worker is created and pushed on
the idle stack without being woken. To be compared with WakeUpOneWorker. -/
def WakeUpOneWorkerSpec (s : PoolState) : PoolState :=
  if s.workers.isEmpty then
    { s with num_wake_ups_before_start := s.num_wake_ups_before_start + 1 }
  else
    let s2 :=
      if s.idle_workers_stack.isEmpty ∧ s.workers.length < s.worker_capacity then
        { s with
          attempts := s.attempts + 1
          next_id := s.next_id + 1
          workers := s.workers ++ [s.next_id]
          is_on_idle_workers_stack := fun x =>
            if x = s.next_id then false else s.is_on_idle_workers_stack x
          woken := s.woken ++ [s.next_id] }
      else
        match s.idle_workers_stack with
        | [] => { s with idle_workers_stack := [] }
        | t :: rest =>
          { s with
            idle_workers_stack := rest
            is_on_idle_workers_stack := fun x =>
              if x = t then false else s.is_on_idle_workers_stack x
            woken := s.woken ++ [t] }
    if s2.idle_workers_stack.isEmpty ∧ s2.workers.length < s2.worker_capacity then
      { s2 with
        attempts := s2.attempts + 1
        next_id := s2.next_id + 1
        workers := s2.workers ++ [s2.next_id]
        is_on_idle_workers_stack := fun x =>
          if x = s2.next_id then true else s2.is_on_idle_workers_stack x
        idle_workers_stack := s2.next_id :: s2.idle_workers_stack }
    else s2

/-- A freshly constructed pool (before Start), with a thread-creation oracle
on which every creation attempt succeeds. -/
def examplePool : PoolState where
  workers := []
  idle_workers_stack := []
  worker_capacity := 0
  num_wake_ups_before_start := 0
  is_on_idle_workers_stack := fun _ => true
  worker_cleanup_disallowed := false
  shared_priority_queue := []
  woken := []
  start_results := fun _ => true
  attempts := 0
  next_id := 0

/-- An operation trace exercising Start, ScheduleSequence, GetWork and
ReEnqueueSequence. -/
def examplePoolOps : List PoolOp :=
  [PoolOp.start 2, PoolOp.scheduleSequence ⟨0, 1⟩, PoolOp.wakeUpOneWorker,
   PoolOp.getWork 0, PoolOp.reEnqueueSequence ⟨0, 2⟩]

/-- A pool with three workers, all idle (worker 2 on top of the stack),
cleanup permitted. -/
def pool3Idle : PoolState where
  workers := [0, 1, 2]
  idle_workers_stack := [2, 1, 0]
  worker_capacity := 3
  num_wake_ups_before_start := 0
  is_on_idle_workers_stack := fun _ => true
  worker_cleanup_disallowed := false
  shared_priority_queue := []
  woken := []
  start_results := fun _ => true
  attempts := 3
  next_id := 3

/-- A pool with one busy worker, an empty idle stack, and capacity 1:
already at capacity. -/
def poolAtCapacity : PoolState where
  workers := [0]
  idle_workers_stack := []
  worker_capacity := 1
  num_wake_ups_before_start := 0
  is_on_idle_workers_stack := fun _ => false
  worker_cleanup_disallowed := false
  shared_priority_queue := []
  woken := []
  start_results := fun _ => true
  attempts := 1
  next_id := 1

/-- A fresh pool with two deferred wake-ups recorded before Start. -/
def poolPending2 : PoolState :=
  { examplePool with num_wake_ups_before_start := 2 }

/-- A fresh pool with two deferred wake-ups whose thread-creation oracle
succeeds only on the very first attempt. -/
def poolFailLater : PoolState :=
  { examplePool with
    num_wake_ups_before_start := 2
    start_results := fun k => k == 0 }

end SchedulerPool

namespace ThreadController

/-- Answer of the WorkDeduplicator to a work request (work_deduplicator.h,
not in src/): either a DoWork must be posted now, or one is not needed. -/
inductive ShouldScheduleWork where
  | kScheduleImmediate
  | kNotNeeded
  deriving DecidableEq, Repr

/-- Modelled from the spec (section 3, WorkDeduplicator state machine;
implementation not in src/): states Idle, Pending-immediate, Pending-delayed,
Running. -/
inductive DedupState where
  | Idle
  | PendingImmediate
  | PendingDelayed
  | Running
  deriving DecidableEq, Repr

/-- Modelled from the spec (section 3): a work-request while Idle moves to
Pending and signals schedule-now; a work-request while already Pending
signals already-scheduled, no-op. A request while Running is not needed
(the running DoWork re-evaluates on exit). -/
def OnWorkRequested : DedupState → DedupState × ShouldScheduleWork
  | DedupState.Idle => (DedupState.PendingImmediate, ShouldScheduleWork.kScheduleImmediate)
  | DedupState.PendingImmediate => (DedupState.PendingImmediate, ShouldScheduleWork.kNotNeeded)
  | DedupState.PendingDelayed => (DedupState.PendingImmediate, ShouldScheduleWork.kNotNeeded)
  | DedupState.Running => (DedupState.Running, ShouldScheduleWork.kNotNeeded)

/-- Modelled from the spec (sections 3 and 4.5; implementation not in src/):
a delayed work request is redundant when an immediate DoWork is already
pending, and otherwise may schedule the delayed continuation. -/
def OnDelayedWorkRequested : DedupState → DedupState × ShouldScheduleWork
  | DedupState.PendingImmediate =>
    (DedupState.PendingImmediate, ShouldScheduleWork.kNotNeeded)
  | d => (d, ShouldScheduleWork.kScheduleImmediate)

/-- Modelled from the spec (section 3): entering DoWork moves to Running. -/
def OnWorkStarted (_ : DedupState) : DedupState := DedupState.Running

/-- Modelled from the spec (section 3): on exit from DoWork, re-evaluate to
Idle or Pending based on whether further (immediate) work was found; the
answer says whether an immediate continuation must be posted. -/
def DidCheckForMoreWork (_ : DedupState) (nextTaskIsImmediate : Bool) :
    DedupState × ShouldScheduleWork :=
  if nextTaskIsImmediate then
    (DedupState.PendingImmediate, ShouldScheduleWork.kScheduleImmediate)
  else (DedupState.Idle, ShouldScheduleWork.kNotNeeded)

/-- Time of a delayed DoWork: TimeTicks() (null), a finite tick count, or
TimeTicks::Max(). -/
inductive TimeV where
  | null
  | fin (t : Nat)
  | infinite
  deriving DecidableEq, Repr

/-- State of a ThreadControllerImpl
(src/task/sequence_manager/thread_controller_impl.cc). tasks models the
SequencedTaskSource's immediate task queue (SelectNextTask pops its head);
delayedTime is the source's next delayed-task time reported by
GetNextTaskTime when no immediate task is left; sysIdle is the value of
OnSystemIdle. posted counts PostTask of the immediate DoWork closure,
postedDelayed logs PostDelayedTask run times, ran counts tasks run, and
dedupConsults counts calls into the WorkDeduplicator. -/
@[ext]
structure TCState where
  work_deduplicator : DedupState
  work_batch_size : Nat
  num_run_levels : Nat
  tasks : List Nat
  delayedTime : TimeV
  sysIdle : Bool
  next_delayed_do_work : TimeV
  closureActive : Bool
  posted : Nat
  postedDelayed : List TimeV
  ran : Nat
  dedupConsults : Nat

/-- ThreadControllerImpl::ScheduleWork (lines 86-94): consult the
deduplicator, and post an immediate DoWork iff it answers
kScheduleImmediate. -/
def ScheduleWork (s : TCState) : TCState :=
  let dr := OnWorkRequested s.work_deduplicator
  let s1 := { s with work_deduplicator := dr.1, dedupConsults := s.dedupConsults + 1 }
  if dr.2 = ShouldScheduleWork.kScheduleImmediate then
    { s1 with posted := s1.posted + 1 }
  else s1

/-- ThreadControllerImpl::SetNextDelayedDoWork (lines 96-126): return at once
when run_time equals next_delayed_do_work; cancel on TimeTicks::Max();
otherwise consult the deduplicator and, unless the request is not needed,
record the run time, reset the cancelable closure and post it delayed. -/
def SetNextDelayedDoWork (s : TCState) (run_time : TimeV) : TCState :=
  if run_time = s.next_delayed_do_work then s
  else if run_time = TimeV.infinite then
    { s with closureActive := false, next_delayed_do_work := TimeV.infinite }
  else
    let dr := OnDelayedWorkRequested s.work_deduplicator
    let s1 := { s with work_deduplicator := dr.1, dedupConsults := s.dedupConsults + 1 }
    if dr.2 = ShouldScheduleWork.kNotNeeded then s1
    else
      { s1 with
        next_delayed_do_work := run_time
        closureActive := true
        postedDelayed := s1.postedDelayed ++ [run_time] }

/-- The task loop of ThreadControllerImpl::DoWork (lines 179-227), iterated on
the remaining batch budget: SelectNextTask, stop when it yields nothing, run
the task, and break after one task when a nested run level is active
(num_run_levels > 1). -/
def doWorkLoop : TCState → Nat → TCState
  | s, 0 => s
  | s, fuel + 1 =>
    match s.tasks with
    | [] => s
    | _ :: rest =>
      let s1 := { s with tasks := rest, ran := s.ran + 1 }
      if 1 < s1.num_run_levels then s1 else doWorkLoop s1 fuel

/-- The tail of ThreadControllerImpl::DoWork (lines 229-277): recompute the
next task time; if it is null (immediate) or the system-idle callback made
work runnable, post a continuation when the deduplicator asks for one;
otherwise handle the delayed cases (no future work, already-requested delay,
or schedule a new delayed DoWork). -/
def doWorkTail (s : TCState) : TCState :=
  let nt := if s.tasks.isEmpty then s.delayedTime else TimeV.null
  if nt = TimeV.null ∨ s.sysIdle then
    let dr := DidCheckForMoreWork s.work_deduplicator true
    let s1 := { s with work_deduplicator := dr.1, dedupConsults := s.dedupConsults + 1 }
    if dr.2 = ShouldScheduleWork.kScheduleImmediate then
      { s1 with posted := s1.posted + 1 }
    else s1
  else
    let dr := DidCheckForMoreWork s.work_deduplicator false
    let s1 := { s with work_deduplicator := dr.1, dedupConsults := s.dedupConsults + 1 }
    if dr.2 = ShouldScheduleWork.kScheduleImmediate then
      { s1 with posted := s1.posted + 1 }
    else if nt = TimeV.infinite then
      { s1 with next_delayed_do_work := TimeV.infinite, closureActive := false }
    else if nt = s1.next_delayed_do_work then s1
    else
      { s1 with
        next_delayed_do_work := nt
        closureActive := true
        postedDelayed := s1.postedDelayed ++ [nt] }

/-- ThreadControllerImpl::DoWork (lines 168-277): OnWorkStarted, the bounded
task loop, then the continuation decision. -/
def DoWork (s : TCState) : TCState :=
  let s0 := { s with work_deduplicator := OnWorkStarted s.work_deduplicator }
  doWorkTail (doWorkLoop s0 s0.work_batch_size)

/-- ThreadControllerImpl::OnBeginNestedRunLoop (lines 299-310): start a new
run level, set the pending-DoWork flag via OnWorkRequested (its answer is
ignored) and unconditionally post an immediate DoWork. -/
def OnBeginNestedRunLoop (s : TCState) : TCState :=
  let s0 := { s with num_run_levels := s.num_run_levels + 1 }
  let dr := OnWorkRequested s0.work_deduplicator
  { s0 with
    work_deduplicator := dr.1
    dedupConsults := s0.dedupConsults + 1
    posted := s0.posted + 1 }

/-- A thread controller at rest: deduplicator Idle, nothing posted, one run
level, batch size 1, no pending work. -/
def tcIdle : TCState where
  work_deduplicator := DedupState.Idle
  work_batch_size := 1
  num_run_levels := 1
  tasks := []
  delayedTime := TimeV.infinite
  sysIdle := false
  next_delayed_do_work := TimeV.infinite
  closureActive := false
  posted := 0
  postedDelayed := []
  ran := 0
  dedupConsults := 0

/-- A thread controller with batch size 3 and five queued immediate tasks. -/
def tcBatch : TCState :=
  { tcIdle with work_batch_size := 3, tasks := [1, 2, 3, 4, 5] }

/-- A thread controller whose next delayed DoWork is scheduled at tick 5. -/
def tcDelayed5 : TCState :=
  { tcIdle with next_delayed_do_work := TimeV.fin 5 }

end ThreadController

namespace SchedulerPool

theorem stackContains_eq {st : List Nat} {w : Nat} :
    stackContains st w = true ↔ w ∈ st := by
  simp [stackContains]

theorem create_cases (s : PoolState) :
    CreateRegisterAndStartSchedulerWorker s =
      (some s.next_id,
        { s with
          attempts := s.attempts + 1
          next_id := s.next_id + 1
          is_on_idle_workers_stack := fun x =>
            if x = s.next_id then true else s.is_on_idle_workers_stack x
          workers := s.workers ++ [s.next_id] }) ∨
    CreateRegisterAndStartSchedulerWorker s =
      (none,
        { s with
          attempts := s.attempts + 1
          next_id := s.next_id + 1
          is_on_idle_workers_stack := fun x =>
            if x = s.next_id then true else s.is_on_idle_workers_stack x }) := by
  unfold CreateRegisterAndStartSchedulerWorker
  by_cases h : s.start_results s.attempts
  · left; simp [h]
  · right; simp [h]

theorem inv_bump {s : PoolState} (h : Inv s) (flagf : Nat → Bool) (att : Nat) :
    Inv { s with
          attempts := att
          next_id := s.next_id + 1
          is_on_idle_workers_stack := flagf } := by
  obtain ⟨h1, h2, h3, h4, h5⟩ := h
  exact ⟨h1, h2, h3, h4, fun w hw => Nat.lt_succ_of_lt (h5 w hw)⟩

theorem inv_append_worker {s : PoolState} (h : Inv s)
    (hlt : s.workers.length < s.worker_capacity)
    (flagf : Nat → Bool) (att : Nat) :
    Inv { s with
          attempts := att
          next_id := s.next_id + 1
          is_on_idle_workers_stack := flagf
          workers := s.workers ++ [s.next_id] } := by
  obtain ⟨h1, h2, h3, h4, h5⟩ := h
  have hfresh : s.next_id ∉ s.workers := fun hmem => absurd (h5 _ hmem) (lt_irrefl _)
  refine ⟨?_, h2, ?_, ?_, ?_⟩
  · intro w hw; exact List.mem_append_left _ (h1 w hw)
  · simp [List.nodup_append, h3, hfresh]
  · simp only [List.length_append, List.length_singleton]; omega
  · intro w hw
    rcases List.mem_append.mp hw with hw | hw
    · exact Nat.lt_succ_of_lt (h5 w hw)
    · simp only [List.mem_singleton] at hw
      exact hw ▸ Nat.lt_succ_self s.next_id

theorem inv_append_worker_push {s : PoolState} (h : Inv s)
    (hlt : s.workers.length < s.worker_capacity)
    (flagf : Nat → Bool) (att : Nat) :
    Inv { s with
          attempts := att
          next_id := s.next_id + 1
          is_on_idle_workers_stack := flagf
          workers := s.workers ++ [s.next_id]
          idle_workers_stack := s.next_id :: s.idle_workers_stack } := by
  obtain ⟨h1, h2, h3, h4, h5⟩ := h
  have hfresh : s.next_id ∉ s.workers := fun hmem => absurd (h5 _ hmem) (lt_irrefl _)
  have hfreshIdle : s.next_id ∉ s.idle_workers_stack := fun hmem => hfresh (h1 _ hmem)
  refine ⟨?_, ?_, ?_, ?_, ?_⟩
  · intro w hw
    rcases List.mem_cons.mp hw with hw | hw
    · subst hw; exact List.mem_append_right _ (List.mem_singleton_self _)
    · exact List.mem_append_left _ (h1 w hw)
  · exact List.Nodup.cons hfreshIdle h2
  · simp [List.nodup_append, h3, hfresh]
  · simp only [List.length_append, List.length_singleton]; omega
  · intro w hw
    rcases List.mem_append.mp hw with hw | hw
    · exact Nat.lt_succ_of_lt (h5 w hw)
    · simp only [List.mem_singleton] at hw
      exact hw ▸ Nat.lt_succ_self s.next_id

theorem inv_pop {s : PoolState} (h : Inv s) :
    Inv { s with idle_workers_stack := s.idle_workers_stack.tail } := by
  obtain ⟨h1, h2, h3, h4, h5⟩ := h
  exact ⟨fun w hw => h1 w ((List.tail_sublist _).subset hw),
         (List.tail_sublist _).nodup h2, h3, h4, h5⟩

theorem inv_wakeWorker {s : PoolState} (h : Inv s) (w : Nat) :
    Inv (wakeWorker s w) := h

theorem inv_maintainStandbyWorker {s : PoolState} (h : Inv s) :
    Inv (maintainStandbyWorker s) := by
  unfold maintainStandbyWorker
  by_cases hg : s.idle_workers_stack.isEmpty ∧ s.workers.length < s.worker_capacity
  · rw [if_pos hg]
    rcases create_cases s with hc | hc <;> rw [hc]
    · exact inv_append_worker_push h hg.2 _ _
    · exact inv_bump h _ _
  · rw [if_neg hg]; exact h

theorem inv_wakeUpOneWorker {s : PoolState} (h : Inv s) :
    Inv (WakeUpOneWorker s) := by
  unfold WakeUpOneWorker
  by_cases he : s.workers.isEmpty
  · rw [if_pos he]; exact h
  · rw [if_neg he]
    by_cases hg : s.idle_workers_stack.isEmpty ∧ s.workers.length < s.worker_capacity
    · rw [if_pos hg]
      rcases create_cases s with hc | hc <;> rw [hc]
      · exact inv_maintainStandbyWorker (inv_wakeWorker (inv_append_worker h hg.2 _ _) _)
      · exact inv_maintainStandbyWorker (inv_bump h _ _)
    · rw [if_neg hg]
      cases hs : s.idle_workers_stack.head? with
      | some t => exact inv_maintainStandbyWorker (inv_wakeWorker (inv_pop h) t)
      | none => exact inv_maintainStandbyWorker (inv_pop h)

end SchedulerPool

namespace SchedulerPool

theorem inv_getWork {s : PoolState} {w : Nat} (h : Inv s)
    (hw : WfOp s (PoolOp.getWork w) = true) :
    Inv (GetWork s w).2 := by
  simp only [WfOp, Bool.and_eq_true, beq_iff_eq] at hw
  obtain ⟨hmem, hflag⟩ := hw
  have hmem' : w ∈ s.workers := by simpa using hmem
  obtain ⟨h1, h2, h3, h4, h5⟩ := h
  unfold GetWork
  by_cases hf : s.is_on_idle_workers_stack w
  · rw [if_pos hf]
    by_cases hcc : CanCleanup s w
    · simp only [hcc, if_true]
      unfold Cleanup
      refine ⟨?_, h2.erase w, h3.erase w, ?_, ?_⟩
      · intro x hx
        obtain ⟨hxw, hxmem⟩ := (h2.mem_erase_iff).mp hx
        exact (h3.mem_erase_iff).mpr ⟨hxw, h1 x hxmem⟩
      · exact le_trans (s.workers.erase_sublist w).length_le h4
      · intro x hx; exact h5 x ((s.workers.erase_sublist w).subset hx)
    · simp only [hcc, if_false]
      exact ⟨h1, h2, h3, h4, h5⟩
  · rw [if_neg hf]
    have hnotidle : w ∉ s.idle_workers_stack := by
      intro hc
      rw [hflag] at hf
      exact hf (stackContains_eq.mpr hc)
    cases hq : PopSequence s.shared_priority_queue with
    | none =>
      refine ⟨?_, List.Nodup.cons hnotidle h2, h3, h4, h5⟩
      intro x hx
      rcases List.mem_cons.mp hx with hx | hx
      · subst hx; exact hmem'
      · exact h1 x hx
    | some e =>
      exact ⟨h1, h2, h3, h4, h5⟩

theorem inv_startLoop {wake : Nat} :
    ∀ (fuel : Nat) (s : PoolState) (index : Nat), Inv s →
      s.workers.length + fuel ≤ s.worker_capacity →
      Inv (startLoop wake s index fuel).2 := by
  intro fuel
  induction fuel with
  | zero => intro s index h _; exact h
  | succ n ih =>
    intro s index h hcap
    have hlt : s.workers.length < s.worker_capacity := by omega
    unfold startLoop
    rcases create_cases s with hc | hc <;> rw [hc] <;> dsimp only
    · by_cases hi : index < wake
      · rw [if_pos hi]
        refine ih _ _ (inv_wakeWorker (inv_append_worker h hlt _ _) _) ?_
        simp only [wakeWorker, List.length_append, List.length_singleton]
        omega
      · rw [if_neg hi]
        refine ih _ _ (inv_append_worker_push h hlt _ _) ?_
        simp only [List.length_append, List.length_singleton]
        omega
    · refine ih _ _ (inv_bump h _ _) ?_
      simpa using Nat.le_of_succ_le hcap

theorem inv_start {s : PoolState} {capacity : Nat} (h : Inv s)
    (hW : s.workers.isEmpty = true) :
    Inv (Start s capacity).2 := by
  have hnil : s.workers = [] := by simpa using hW
  obtain ⟨h1, h2, h3, h4, h5⟩ := h
  unfold Start
  dsimp only
  refine inv_startLoop _ _ _ ⟨?_, h2, ?_, ?_, ?_⟩ ?_
  · intro w hw; exact h1 w hw
  · exact h3
  · simp [hnil]
  · intro w hw; exact h5 w hw
  · simp [hnil]

theorem inv_applyOp {s : PoolState} {op : PoolOp} (h : Inv s)
    (hwf : WfOp s op = true) :
    Inv (applyOp s op) := by
  cases op with
  | start capacity => exact inv_start h (by simpa [WfOp] using hwf)
  | scheduleSequence sq => exact inv_wakeUpOneWorker h
  | wakeUpOneWorker => exact inv_wakeUpOneWorker h
  | getWork w => exact inv_getWork h hwf
  | reEnqueueSequence sq => exact h
  | disallowWorkerCleanup => exact h

theorem inv_applyOps {s : PoolState} {ops : List PoolOp} (h : Inv s)
    (hwf : WfTrace s ops = true) :
    Inv (applyOps s ops) := by
  induction ops generalizing s with
  | nil => exact h
  | cons op rest ih =>
    simp only [WfTrace, Bool.and_eq_true] at hwf
    exact ih (inv_applyOp h hwf.1) hwf.2

theorem wfTrace_of_append {s : PoolState} {pre suf : List PoolOp}
    (h : WfTrace s (pre ++ suf) = true) :
    WfTrace s pre = true := by
  induction pre generalizing s with
  | nil => rfl
  | cons op rest ih =>
    simp only [List.cons_append, WfTrace, Bool.and_eq_true] at h
    simp only [WfTrace, Bool.and_eq_true]
    exact ⟨h.1, ih h.2⟩

/-- C1: along every trace of well-formed worker-pool operations starting from
a state satisfying the pool invariant, after every operation (every prefix of
the trace) the idle workers stack contains only workers from the workers
list, and size(idle stack) <= size(workers) <= worker_capacity. -/
theorem pool_invariant_along_traces (s : PoolState) (ops pre : List PoolOp)
    (hInv : Inv s) (hWf : WfTrace s ops = true) (hpre : pre <+: ops) :
    (∀ w ∈ (applyOps s pre).idle_workers_stack, w ∈ (applyOps s pre).workers) ∧
    (applyOps s pre).idle_workers_stack.length ≤ (applyOps s pre).workers.length ∧
    (applyOps s pre).workers.length ≤ (applyOps s pre).worker_capacity := by
  obtain ⟨suf, rfl⟩ := hpre
  have hwfpre := wfTrace_of_append hWf
  obtain ⟨h1, h2, h3, h4, h5⟩ := inv_applyOps hInv hwfpre
  refine ⟨h1, ?_, h4⟩
  exact (List.subperm_of_subset h2 (fun x hx => h1 x hx)).length_le

/-- Witness for C1: the invariant holds after the example trace (Start with
capacity 2, a scheduled sequence, a wake-up, GetWork and a re-enqueue) from
a fresh pool. -/
theorem pool_invariant_along_traces_witness :
    (∀ w ∈ (applyOps examplePool examplePoolOps).idle_workers_stack,
        w ∈ (applyOps examplePool examplePoolOps).workers) ∧
    (applyOps examplePool examplePoolOps).idle_workers_stack.length ≤
      (applyOps examplePool examplePoolOps).workers.length ∧
    (applyOps examplePool examplePoolOps).workers.length ≤
      (applyOps examplePool examplePoolOps).worker_capacity :=
  pool_invariant_along_traces examplePool examplePoolOps examplePoolOps
    (by decide) (by decide) ⟨[], List.append_nil _⟩

end SchedulerPool

namespace SchedulerPool

theorem create_ok (s : PoolState) (h : s.start_results s.attempts = true) :
    CreateRegisterAndStartSchedulerWorker s =
      (some s.next_id,
        { s with
          attempts := s.attempts + 1
          next_id := s.next_id + 1
          is_on_idle_workers_stack := fun x =>
            if x = s.next_id then true else s.is_on_idle_workers_stack x
          workers := s.workers ++ [s.next_id] }) := by
  unfold CreateRegisterAndStartSchedulerWorker
  simp [h]

theorem create_fail (s : PoolState) (h : s.start_results s.attempts = false) :
    CreateRegisterAndStartSchedulerWorker s =
      (none,
        { s with
          attempts := s.attempts + 1
          next_id := s.next_id + 1
          is_on_idle_workers_stack := fun x =>
            if x = s.next_id then true else s.is_on_idle_workers_stack x }) := by
  unfold CreateRegisterAndStartSchedulerWorker
  simp [h]

theorem maintainStandbyWorker_ok (s : PoolState)
    (h : s.start_results s.attempts = true) :
    maintainStandbyWorker s =
      if s.idle_workers_stack.isEmpty ∧ s.workers.length < s.worker_capacity then
        { s with
          attempts := s.attempts + 1
          next_id := s.next_id + 1
          is_on_idle_workers_stack := fun x =>
            if x = s.next_id then true else s.is_on_idle_workers_stack x
          workers := s.workers ++ [s.next_id]
          idle_workers_stack := s.next_id :: s.idle_workers_stack }
      else s := by
  unfold maintainStandbyWorker
  rw [create_ok s h]

/-- C2: when a worker enters GetWork already idle-marked (its idle wait timed
out), GetWork returns no work; it cleans the worker up only when CanCleanup
holds, which requires at least two idle workers (the worker is not the sole -
in fact not the top - idle worker) and cleanup to be permitted, and the
cleanup removes the worker from both the idle stack and the workers list
while leaving at least one idle worker; when cleanup is refused the pool
state is unchanged. -/
theorem getWork_cleanup_policy (s : PoolState) (w : Nat)
    (hInv : Inv s)
    (hflag : s.is_on_idle_workers_stack w = true)
    (hmem : w ∈ s.idle_workers_stack) :
    (GetWork s w).1 = none ∧
    (CanCleanup s w = false → (GetWork s w).2 = s) ∧
    (CanCleanup s w = true →
      2 ≤ s.idle_workers_stack.length ∧
      s.worker_cleanup_disallowed = false ∧
      w ∉ (GetWork s w).2.idle_workers_stack ∧
      w ∉ (GetWork s w).2.workers ∧
      1 ≤ (GetWork s w).2.idle_workers_stack.length) := by
  obtain ⟨h1, h2, h3, h4, h5⟩ := hInv
  have hGW : GetWork s w = (none, if CanCleanup s w then Cleanup s w else s) := by
    unfold GetWork
    rw [if_pos hflag]
  rw [hGW]
  refine ⟨rfl, ?_, ?_⟩
  · intro hcc
    have hcc' : ¬ (CanCleanup s w = true) := by simp [hcc]
    simp only [if_neg hcc']
  · intro hcc
    simp only [if_pos hcc]
    simp only [CanCleanup, Bool.and_eq_true, Bool.not_eq_true'] at hcc
    obtain ⟨hpeek, hdis⟩ := hcc
    have hne : s.idle_workers_stack ≠ [] := List.ne_nil_of_mem hmem
    obtain ⟨t, rest, hys⟩ := List.exists_cons_of_ne_nil hne
    have hwt : w ≠ t := by
      rw [hys] at hpeek
      simpa using hpeek
    have hwrest : w ∈ rest := by
      have := hmem
      rw [hys] at this
      rcases List.mem_cons.mp this with h | h
      · exact absurd h hwt
      · exact h
    have hlen2 : 2 ≤ s.idle_workers_stack.length := by
      rw [hys]
      have := List.length_pos.mpr (List.ne_nil_of_mem hwrest)
      simp only [List.length_cons]
      omega
    have herase : (s.idle_workers_stack.erase w).length + 1 =
        s.idle_workers_stack.length := List.length_erase_add_one hmem
    refine ⟨hlen2, hdis, ?_, ?_, ?_⟩
    · exact h2.not_mem_erase
    · exact h3.not_mem_erase
    · simp only [Cleanup]
      omega

/-- Witness for C2: in a pool of three idle workers with cleanup permitted,
worker 1 (idle-marked, not the stack top) gets no work and is cleaned up,
leaving a non-empty idle stack. -/
theorem getWork_cleanup_policy_witness :
    Inv pool3Idle ∧ pool3Idle.is_on_idle_workers_stack 1 = true ∧
    1 ∈ pool3Idle.idle_workers_stack ∧
    ((GetWork pool3Idle 1).1 = none ∧
     (CanCleanup pool3Idle 1 = false → (GetWork pool3Idle 1).2 = pool3Idle) ∧
     (CanCleanup pool3Idle 1 = true →
       2 ≤ pool3Idle.idle_workers_stack.length ∧
       pool3Idle.worker_cleanup_disallowed = false ∧
       1 ∉ (GetWork pool3Idle 1).2.idle_workers_stack ∧
       1 ∉ (GetWork pool3Idle 1).2.workers ∧
       1 ≤ (GetWork pool3Idle 1).2.idle_workers_stack.length)) :=
  ⟨by decide, rfl, by decide,
   getWork_cleanup_policy pool3Idle 1 (by decide) rfl (by decide)⟩

/-- C3: when every thread-creation attempt succeeds, WakeUpOneWorker behaves
exactly as the specification describes it (WakeUpOneWorkerSpec): deferred
count increment on an empty pool; otherwise create-and-wake when the idle
stack is empty below capacity, else pop-and-wake the stack top; finally a
standby worker is created and pushed idle, unwoken, if the stack emptied and
capacity remains. -/
theorem wakeUpOneWorker_matches_spec (s : PoolState)
    (hOk : ∀ k, s.start_results k = true) :
    WakeUpOneWorker s = WakeUpOneWorkerSpec s := by
  unfold WakeUpOneWorker WakeUpOneWorkerSpec
  by_cases he : s.workers.isEmpty
  · simp [he]
  · rw [if_neg he, if_neg he]
    by_cases hg : s.idle_workers_stack.isEmpty ∧ s.workers.length < s.worker_capacity
    · rw [if_pos hg, if_pos hg, create_ok s (hOk _)]
      dsimp only [wakeWorker]
      have hfl : (fun x =>
            if x = s.next_id then false
            else if x = s.next_id then true else s.is_on_idle_workers_stack x) =
          (fun x =>
            if x = s.next_id then false else s.is_on_idle_workers_stack x) := by
        funext x
        by_cases hx : x = s.next_id <;> simp [hx]
      rw [hfl]
      simp [maintainStandbyWorker, CreateRegisterAndStartSchedulerWorker, hOk]
    · rw [if_neg hg, if_neg hg]
      cases hys : s.idle_workers_stack with
      | nil =>
        simp [maintainStandbyWorker, CreateRegisterAndStartSchedulerWorker, hOk]
      | cons t rest =>
        dsimp only [List.head?_cons, List.tail_cons, wakeWorker]
        simp [maintainStandbyWorker, CreateRegisterAndStartSchedulerWorker, hOk]

/-- Witness for C3: the source WakeUpOneWorker and the specification's
description agree on the three-idle-worker pool. -/
theorem wakeUpOneWorker_matches_spec_witness :
    WakeUpOneWorker pool3Idle = WakeUpOneWorkerSpec pool3Idle :=
  wakeUpOneWorker_matches_spec pool3Idle (fun _ => rfl)

end SchedulerPool

namespace SchedulerPool

theorem countWake_le : ∀ (fuel wake index : Nat), countWake wake index fuel ≤ fuel := by
  intro fuel
  induction fuel with
  | zero => intro wake index; simp [countWake]
  | succ n ih =>
    intro wake index
    unfold countWake
    have := ih wake (index + 1)
    by_cases hi : index < wake
    · rw [if_pos hi]; omega
    · rw [if_neg hi]; omega

theorem countWake_eq : ∀ (fuel wake index : Nat),
    countWake wake index fuel = min wake (index + fuel) - min wake index := by
  intro fuel
  induction fuel with
  | zero => intro wake index; simp [countWake]
  | succ n ih =>
    intro wake index
    unfold countWake
    rw [ih wake (index + 1)]
    by_cases hi : index < wake
    · rw [if_pos hi]; omega
    · rw [if_neg hi]; omega

theorem startLoop_fst_of_pos {wake : Nat} :
    ∀ (fuel : Nat) (s : PoolState) (index : Nat), 1 ≤ index →
      (startLoop wake s index fuel).1 = false := by
  intro fuel
  induction fuel with
  | zero => intro s index _; rfl
  | succ n ih =>
    intro s index hpos
    unfold startLoop
    have hbeq : (index == 0) = false := by
      simp only [beq_eq_false_iff_ne, ne_eq]
      omega
    rcases create_cases s with hc | hc <;> rw [hc] <;> dsimp only
    · rw [hbeq]
      by_cases hi : index < wake
      · rw [if_pos hi]
        simp [ih _ (index + 1) (by omega)]
      · rw [if_neg hi]
        simp [ih _ (index + 1) (by omega)]
    · rw [hbeq]
      simp [ih _ (index + 1) (by omega)]

theorem startLoop_workers_le {wake : Nat} :
    ∀ (fuel : Nat) (s : PoolState) (index : Nat),
      (startLoop wake s index fuel).2.workers.length ≤ s.workers.length + fuel := by
  intro fuel
  induction fuel with
  | zero => intro s index; simp [startLoop]
  | succ n ih =>
    intro s index
    unfold startLoop
    rcases create_cases s with hc | hc <;> rw [hc] <;> dsimp only
    · by_cases hi : index < wake
      · rw [if_pos hi]
        have := ih (wakeWorker
          { s with
            attempts := s.attempts + 1
            next_id := s.next_id + 1
            is_on_idle_workers_stack := fun x =>
              if x = s.next_id then true else s.is_on_idle_workers_stack x
            workers := s.workers ++ [s.next_id] } s.next_id) (index + 1)
        simp only [wakeWorker, List.length_append, List.length_singleton] at this ⊢
        omega
      · rw [if_neg hi]
        have := ih
          { s with
            attempts := s.attempts + 1
            next_id := s.next_id + 1
            is_on_idle_workers_stack := fun x =>
              if x = s.next_id then true else s.is_on_idle_workers_stack x
            workers := s.workers ++ [s.next_id]
            idle_workers_stack := s.next_id ::
              ({ s with
                 attempts := s.attempts + 1
                 next_id := s.next_id + 1
                 is_on_idle_workers_stack := fun x =>
                   if x = s.next_id then true else s.is_on_idle_workers_stack x
                 workers := s.workers ++ [s.next_id] } : PoolState).idle_workers_stack }
          (index + 1)
        simp only [List.length_append, List.length_singleton] at this ⊢
        omega
    · have := ih
        { s with
          attempts := s.attempts + 1
          next_id := s.next_id + 1
          is_on_idle_workers_stack := fun x =>
            if x = s.next_id then true else s.is_on_idle_workers_stack x }
        (index + 1)
      dsimp only at this ⊢
      omega

end SchedulerPool

namespace SchedulerPool

theorem startLoop_workers_len {wake : Nat} :
    ∀ (fuel : Nat) (s : PoolState) (index : Nat),
      (∀ k, s.start_results k = true) →
      (startLoop wake s index fuel).2.workers.length = s.workers.length + fuel := by
  intro fuel
  induction fuel with
  | zero => intro s index _; rfl
  | succ n ih =>
    intro s index hOk
    unfold startLoop
    rw [create_ok s (hOk _)]
    dsimp only
    by_cases hi : index < wake
    · rw [if_pos hi, ih]
      · simp only [wakeWorker, List.length_append, List.length_singleton]
        omega
      · exact hOk
    · rw [if_neg hi, ih]
      · simp only [List.length_append, List.length_singleton]
        omega
      · exact hOk

theorem startLoop_woken_len {wake : Nat} :
    ∀ (fuel : Nat) (s : PoolState) (index : Nat),
      (∀ k, s.start_results k = true) →
      (startLoop wake s index fuel).2.woken.length =
        s.woken.length + countWake wake index fuel := by
  intro fuel
  induction fuel with
  | zero => intro s index _; simp [startLoop, countWake]
  | succ n ih =>
    intro s index hOk
    unfold startLoop
    rw [create_ok s (hOk _)]
    dsimp only
    simp only [countWake]
    by_cases hi : index < wake
    · rw [if_pos hi, if_pos hi, ih]
      · dsimp only [wakeWorker]
        simp only [List.length_append, List.length_singleton]
        omega
      · exact hOk
    · rw [if_neg hi, if_neg hi, ih]
      · dsimp only
        omega
      · exact hOk

theorem startLoop_idle_len {wake : Nat} :
    ∀ (fuel : Nat) (s : PoolState) (index : Nat),
      (∀ k, s.start_results k = true) →
      (startLoop wake s index fuel).2.idle_workers_stack.length =
        s.idle_workers_stack.length + (fuel - countWake wake index fuel) := by
  intro fuel
  induction fuel with
  | zero => intro s index _; simp [startLoop, countWake]
  | succ n ih =>
    intro s index hOk
    have hle := countWake_le n wake (index + 1)
    unfold startLoop
    rw [create_ok s (hOk _)]
    dsimp only
    simp only [countWake]
    by_cases hi : index < wake
    · rw [if_pos hi, if_pos hi, ih]
      · dsimp only [wakeWorker]
        omega
      · exact hOk
    · rw [if_neg hi, if_neg hi, ih]
      · dsimp only
        simp only [List.length_cons]
        omega
      · exact hOk

theorem startLoop_idle_flags {wake : Nat} :
    ∀ (fuel : Nat) (s : PoolState) (index : Nat),
      (∀ k, s.start_results k = true) →
      (∀ w ∈ s.idle_workers_stack,
        s.is_on_idle_workers_stack w = true ∧ w < s.next_id) →
      ∀ w ∈ (startLoop wake s index fuel).2.idle_workers_stack,
        (startLoop wake s index fuel).2.is_on_idle_workers_stack w = true ∧
          w < (startLoop wake s index fuel).2.next_id := by
  intro fuel
  induction fuel with
  | zero => intro s index _ hIdle; exact hIdle
  | succ n ih =>
    intro s index hOk hIdle
    unfold startLoop
    rw [create_ok s (hOk _)]
    dsimp only
    by_cases hi : index < wake
    · rw [if_pos hi]
      refine ih _ (index + 1) hOk ?_
      intro w hw
      dsimp only [wakeWorker] at hw ⊢
      obtain ⟨hf, hlt⟩ := hIdle w hw
      have hne : w ≠ s.next_id := by omega
      rw [if_neg hne, if_neg hne]
      exact ⟨hf, by omega⟩
    · rw [if_neg hi]
      refine ih _ (index + 1) hOk ?_
      intro w hw
      dsimp only at hw ⊢
      rcases List.mem_cons.mp hw with hw | hw
      · subst hw
        rw [if_pos rfl]
        exact ⟨rfl, by omega⟩
      · obtain ⟨hf, hlt⟩ := hIdle w hw
        have hne : w ≠ s.next_id := by omega
        rw [if_neg hne]
        exact ⟨hf, by omega⟩

theorem startLoop_woken_flags {wake : Nat} :
    ∀ (fuel : Nat) (s : PoolState) (index : Nat),
      (∀ k, s.start_results k = true) →
      (∀ w ∈ s.woken,
        s.is_on_idle_workers_stack w = false ∧ w < s.next_id) →
      ∀ w ∈ (startLoop wake s index fuel).2.woken,
        (startLoop wake s index fuel).2.is_on_idle_workers_stack w = false ∧
          w < (startLoop wake s index fuel).2.next_id := by
  intro fuel
  induction fuel with
  | zero => intro s index _ hWoken; exact hWoken
  | succ n ih =>
    intro s index hOk hWoken
    unfold startLoop
    rw [create_ok s (hOk _)]
    dsimp only
    by_cases hi : index < wake
    · rw [if_pos hi]
      refine ih _ (index + 1) hOk ?_
      intro w hw
      dsimp only [wakeWorker] at hw ⊢
      rcases List.mem_append.mp hw with hw | hw
      · obtain ⟨hf, hlt⟩ := hWoken w hw
        have hne : w ≠ s.next_id := by omega
        rw [if_neg hne, if_neg hne]
        exact ⟨hf, by omega⟩
      · simp only [List.mem_singleton] at hw
        subst hw
        rw [if_pos rfl]
        exact ⟨rfl, by omega⟩
    · rw [if_neg hi]
      refine ih _ (index + 1) hOk ?_
      intro w hw
      dsimp only at hw ⊢
      obtain ⟨hf, hlt⟩ := hWoken w hw
      have hne : w ≠ s.next_id := by omega
      rw [if_neg hne]
      exact ⟨hf, by omega⟩

end SchedulerPool

namespace SchedulerPool

theorem startLoop_fst_succ {wake : Nat} (s : PoolState) (n : Nat) :
    (startLoop wake s 0 (n + 1)).1 = ! s.start_results s.attempts := by
  unfold startLoop
  by_cases ho : s.start_results s.attempts = true
  · rw [create_ok s ho]
    dsimp only
    by_cases h0 : 0 < wake
    · rw [if_pos h0, startLoop_fst_of_pos]
      · simp [ho]
      · omega
    · rw [if_neg h0, startLoop_fst_of_pos]
      · simp [ho]
      · omega
  · have hof : s.start_results s.attempts = false := by
      revert ho
      cases s.start_results s.attempts <;> simp
    rw [create_fail s hof]
    dsimp only
    rw [startLoop_fst_of_pos]
    · simp [hof]
    · omega

/-- C4: from a fresh pool with p wake-ups deferred before Start and an
always-succeeding thread-creation oracle, Start with capacity c creates
exactly min(p + 1, c) workers, wakes the first min(p, min(p + 1, c)) of them
(their idle flags cleared), leaves the rest on the idle stack with their idle
flags set, and trips no CHECK. -/
theorem start_initial_workers (s : PoolState) (capacity : Nat)
    (hcap : 1 ≤ capacity)
    (hnil : s.workers = []) (hidle : s.idle_workers_stack = [])
    (hwoken : s.woken = []) (hOk : ∀ k, s.start_results k = true) :
    (Start s capacity).1 = false ∧
    (Start s capacity).2.workers.length =
      min (s.num_wake_ups_before_start + 1) capacity ∧
    (Start s capacity).2.woken.length =
      min s.num_wake_ups_before_start
        (min (s.num_wake_ups_before_start + 1) capacity) ∧
    (Start s capacity).2.idle_workers_stack.length =
      min (s.num_wake_ups_before_start + 1) capacity -
        min s.num_wake_ups_before_start
          (min (s.num_wake_ups_before_start + 1) capacity) ∧
    (∀ w ∈ (Start s capacity).2.idle_workers_stack,
      (Start s capacity).2.is_on_idle_workers_stack w = true) ∧
    (∀ w ∈ (Start s capacity).2.woken,
      (Start s capacity).2.is_on_idle_workers_stack w = false) := by
  unfold Start
  dsimp only
  have hn : 1 ≤ min (s.num_wake_ups_before_start + 1) capacity :=
    le_min (by omega) hcap
  refine ⟨?_, ?_, ?_, ?_, ?_, ?_⟩
  · obtain ⟨m, hm⟩ : ∃ m, min (s.num_wake_ups_before_start + 1) capacity = m + 1 :=
      ⟨min (s.num_wake_ups_before_start + 1) capacity - 1, by omega⟩
    rw [hm, startLoop_fst_succ]
    simp [hOk]
  · rw [startLoop_workers_len]
    · simp [hnil]
    · exact hOk
  · rw [startLoop_woken_len]
    · rw [countWake_eq]
      simp [hwoken]
    · exact hOk
  · rw [startLoop_idle_len]
    · rw [countWake_eq]
      simp [hidle]
    · exact hOk
  · intro w hw
    refine ((startLoop_idle_flags _ _ 0 ?_ ?_) w hw).1
    · exact hOk
    · intro x hx
      dsimp only at hx
      rw [hidle] at hx
      cases hx
  · intro w hw
    refine ((startLoop_woken_flags _ _ 0 ?_ ?_) w hw).1
    · exact hOk
    · intro x hx
      dsimp only at hx
      rw [hwoken] at hx
      cases hx

/-- Witness for C4: Start with capacity 4 and 2 pending wake-ups creates
exactly 3 workers (min(2 + 1, 4)), 2 of them woken and 1 left idle. -/
theorem start_initial_workers_witness :
    (Start poolPending2 4).1 = false ∧
    (Start poolPending2 4).2.workers.length = min (2 + 1) 4 ∧
    (Start poolPending2 4).2.woken.length = min 2 (min (2 + 1) 4) ∧
    (Start poolPending2 4).2.idle_workers_stack.length =
      min (2 + 1) 4 - min 2 (min (2 + 1) 4) ∧
    (∀ w ∈ (Start poolPending2 4).2.idle_workers_stack,
      (Start poolPending2 4).2.is_on_idle_workers_stack w = true) ∧
    (∀ w ∈ (Start poolPending2 4).2.woken,
      (Start poolPending2 4).2.is_on_idle_workers_stack w = false) :=
  start_initial_workers poolPending2 4 (by omega) rfl rfl rfl (fun _ => rfl)

/-- C5: during Start the CHECK trips exactly when the creation of the very
first worker fails; later worker-creation failures are tolerated, the pool
simply ending up with at most the requested number of workers. -/
theorem start_check_fatal_iff_first (s : PoolState) (capacity : Nat)
    (hcap : 1 ≤ capacity) :
    ((Start s capacity).1 = true ↔ s.start_results s.attempts = false) ∧
    (Start s capacity).2.workers.length ≤
      s.workers.length + min (s.num_wake_ups_before_start + 1) capacity := by
  constructor
  · unfold Start
    dsimp only
    have hn : 1 ≤ min (s.num_wake_ups_before_start + 1) capacity :=
      le_min (by omega) hcap
    obtain ⟨m, hm⟩ : ∃ m, min (s.num_wake_ups_before_start + 1) capacity = m + 1 :=
      ⟨min (s.num_wake_ups_before_start + 1) capacity - 1, by omega⟩
    rw [hm, startLoop_fst_succ]
    cases hres : s.start_results s.attempts <;> simp
  · unfold Start
    dsimp only
    exact startLoop_workers_le _ _ 0

/-- Witness for C5: with an oracle succeeding only on the first attempt,
Start with capacity 3 and 2 deferred wake-ups trips no CHECK and ends with a
single worker - fewer than the 3 requested. -/
theorem start_check_fatal_iff_first_witness :
    (((Start poolFailLater 3).1 = true ↔
        poolFailLater.start_results poolFailLater.attempts = false) ∧
      (Start poolFailLater 3).2.workers.length ≤
        poolFailLater.workers.length +
          min (poolFailLater.num_wake_ups_before_start + 1) 3) ∧
    (Start poolFailLater 3).2.workers.length = 1 :=
  ⟨start_check_fatal_iff_first poolFailLater 3 (by omega), by decide⟩

end SchedulerPool

namespace SchedulerPool

/-- C6: ReEnqueueSequence only pushes the sequence back into the shared
priority queue under its current sort key: the idle stack, the workers list,
the deferred wake-up count, the wake-up log and the creation-attempt counter
are all unchanged, so no worker is woken or created; ScheduleSequence, in
contrast, is exactly that push followed by WakeUpOneWorker. -/
theorem reEnqueueSequence_no_wakeup (s : PoolState) (sq : Sequence) :
    (ReEnqueueSequence s sq).shared_priority_queue =
      s.shared_priority_queue ++ [(GetSortKey sq, sq)] ∧
    (ReEnqueueSequence s sq).idle_workers_stack = s.idle_workers_stack ∧
    (ReEnqueueSequence s sq).workers = s.workers ∧
    (ReEnqueueSequence s sq).num_wake_ups_before_start =
      s.num_wake_ups_before_start ∧
    (ReEnqueueSequence s sq).woken = s.woken ∧
    (ReEnqueueSequence s sq).attempts = s.attempts ∧
    ScheduleSequence s sq = WakeUpOneWorker (ReEnqueueSequence s sq) :=
  ⟨rfl, rfl, rfl, rfl, rfl, rfl, rfl⟩

/-- C10: with a non-empty workers list, an empty idle stack, and the pool at
capacity, WakeUpOneWorker leaves the entire pool state unchanged: the pop of
the empty idle stack yields no worker, no worker is woken and none is
created. -/
theorem wakeUpOneWorker_at_capacity (s : PoolState)
    (hne : s.workers ≠ [])
    (hidle : s.idle_workers_stack = [])
    (hcap : s.workers.length = s.worker_capacity) :
    WakeUpOneWorker s = s := by
  unfold WakeUpOneWorker
  have he : ¬ (s.workers.isEmpty = true) := by simp [hne]
  rw [if_neg he]
  have hg : ¬ (s.idle_workers_stack.isEmpty = true ∧
      s.workers.length < s.worker_capacity) := by
    intro h
    omega
  rw [if_neg hg]
  dsimp only
  rw [hidle]
  dsimp only [List.head?_nil, List.tail_nil]
  unfold maintainStandbyWorker
  rw [if_neg ?hg2]
  case hg2 =>
    intro h
    exact absurd h.2 (by dsimp only; omega)
  rw [← hidle]

/-- Witness for C10: a pool with one busy worker and capacity 1 is unchanged
by WakeUpOneWorker. -/
theorem wakeUpOneWorker_at_capacity_witness :
    WakeUpOneWorker poolAtCapacity = poolAtCapacity :=
  wakeUpOneWorker_at_capacity poolAtCapacity (by decide) rfl rfl

end SchedulerPool

namespace ThreadController

/-- C7: ScheduleWork posts an immediate DoWork exactly when the deduplicator's
OnWorkRequested answers kScheduleImmediate; from an Idle deduplicator, two
successive work requests post exactly one task - the first posts, the second
is a no-op. -/
theorem scheduleWork_posts_iff_dedup (s : TCState) :
    ((ScheduleWork s).posted =
      if (OnWorkRequested s.work_deduplicator).2 =
          ShouldScheduleWork.kScheduleImmediate
      then s.posted + 1 else s.posted) ∧
    (s.work_deduplicator = DedupState.Idle →
      (ScheduleWork s).posted = s.posted + 1 ∧
      (ScheduleWork (ScheduleWork s)).posted = s.posted + 1) := by
  constructor
  · cases h : s.work_deduplicator <;> simp [ScheduleWork, OnWorkRequested, h]
  · intro h
    constructor <;> simp [ScheduleWork, OnWorkRequested, h]

/-- Witness for C7: from the resting controller, the first ScheduleWork posts
one DoWork and the second posts nothing further. -/
theorem scheduleWork_posts_iff_dedup_witness :
    (ScheduleWork tcIdle).posted = tcIdle.posted + 1 ∧
    (ScheduleWork (ScheduleWork tcIdle)).posted = tcIdle.posted + 1 :=
  (scheduleWork_posts_iff_dedup tcIdle).2 rfl

theorem doWorkLoop_ran : ∀ (fuel : Nat) (s : TCState),
    (doWorkLoop s fuel).ran = s.ran +
      (if 1 < s.num_run_levels then min fuel (min s.tasks.length 1)
       else min fuel s.tasks.length) := by
  intro fuel
  induction fuel with
  | zero => intro s; simp [doWorkLoop]
  | succ n ih =>
    intro s
    unfold doWorkLoop
    cases ht : s.tasks with
    | nil => simp
    | cons t rest =>
      dsimp only
      by_cases hn : 1 < s.num_run_levels
      · rw [if_pos hn, if_pos hn]
        simp only [List.length_cons]
        omega
      · rw [if_neg hn, if_neg hn, ih]
        dsimp only
        rw [if_neg hn]
        simp only [List.length_cons]
        omega

theorem doWorkTail_ran (s : TCState) : (doWorkTail s).ran = s.ran := by
  unfold doWorkTail
  dsimp only
  repeat' split
  all_goals rfl

/-- C8: DoWork runs min(batch size, available tasks) tasks per invocation -
at most work_batch_size, stopping as soon as SelectNextTask yields nothing -
and at most one task while a nested run level is active; entering a nested
run loop always increments the run-level count and unconditionally posts an
immediate DoWork continuation, whatever the deduplicator state. -/
theorem doWork_batch_and_nesting (s : TCState) :
    (DoWork s).ran = s.ran +
      (if 1 < s.num_run_levels
       then min s.work_batch_size (min s.tasks.length 1)
       else min s.work_batch_size s.tasks.length) ∧
    (DoWork s).ran ≤ s.ran + s.work_batch_size ∧
    (1 < s.num_run_levels → (DoWork s).ran ≤ s.ran + 1) ∧
    (OnBeginNestedRunLoop s).posted = s.posted + 1 ∧
    (OnBeginNestedRunLoop s).num_run_levels = s.num_run_levels + 1 := by
  have h1 : (DoWork s).ran = s.ran +
      (if 1 < s.num_run_levels
       then min s.work_batch_size (min s.tasks.length 1)
       else min s.work_batch_size s.tasks.length) := by
    unfold DoWork
    rw [doWorkTail_ran, doWorkLoop_ran]
  refine ⟨h1, ?_, ?_, rfl, rfl⟩
  · rw [h1]
    by_cases hn : 1 < s.num_run_levels
    · rw [if_pos hn]; omega
    · rw [if_neg hn]; omega
  · intro hn
    rw [h1, if_pos hn]
    omega

/-- Witness for C8: with batch size 3 and five queued tasks, DoWork runs
exactly three tasks, and entering a nested run loop posts one continuation. -/
theorem doWork_batch_and_nesting_witness :
    (DoWork tcBatch).ran = tcBatch.ran +
      (if 1 < tcBatch.num_run_levels
       then min tcBatch.work_batch_size (min tcBatch.tasks.length 1)
       else min tcBatch.work_batch_size tcBatch.tasks.length) ∧
    (OnBeginNestedRunLoop tcBatch).posted = tcBatch.posted + 1 :=
  ⟨(doWork_batch_and_nesting tcBatch).1,
   (doWork_batch_and_nesting tcBatch).2.2.2.1⟩

/-- C9: when the requested run time equals the recorded next_delayed_do_work,
SetNextDelayedDoWork is a complete no-op: the state - including the posted
task counters, the deduplicator-consultation count, next_delayed_do_work and
the cancelable closure - is unchanged. -/
theorem setNextDelayedDoWork_same_time (s : TCState) (run_time : TimeV)
    (h : run_time = s.next_delayed_do_work) :
    SetNextDelayedDoWork s run_time = s := by
  unfold SetNextDelayedDoWork
  rw [if_pos h]

/-- Witness for C9: requesting the already-scheduled tick 5 leaves the
controller untouched. -/
theorem setNextDelayedDoWork_same_time_witness :
    SetNextDelayedDoWork tcDelayed5 (TimeV.fin 5) = tcDelayed5 :=
  setNextDelayedDoWork_same_time tcDelayed5 (TimeV.fin 5) rfl

end ThreadController
